import Mathlib

/-!
Verification development for the MXNet landmarks shard descriptor
(`openfl-tutorials/interactive_api/MXNet_landmarks/envoy/landmark_shard_descriptor.py`).

The Python file is embedded shallowly:

* Python list slicing `l[rank - 1 :: worldsize]` is modelled by `sliceStride`
  (indices `rank - 1, rank - 1 + worldsize, ...` in increasing order, which is
  the Python semantics for a nonnegative start and a positive step).
* The in-place `random.shuffle` is impure; it is modelled by an explicit
  `shuffle` function parameter, constrained in theorems to be a permutation.
* The filesystem seen by the descriptor is modelled as an association list
  from relative paths (lists of components) to file data.  `md5` is modelled
  as a function parameter from file data to a digest; theorems that need
  collision freedom assume it is injective on byte contents.
* A file whose bytes are a valid JSON manifest is modelled by the
  `FileData.manifestJson` constructor; `json.load` on any other content
  raises, which is modelled by `Option`-valued results (`none` = uncaught
  Python exception).
* Numpy arrays are abstracted to their shape metadata (`NpArr`), which is all
  the probed code inspects; `np.load` is modelled by a `load` function
  parameter returning `Option NpArr` (`none` = missing or malformed file).
* Python `str` on a natural number is modelled by `pyStr` (decimal digits).
-/

/-! ## Sharding (LandmarkShardDataset) -/

/-- Model of Python list slicing `l[start :: step]` for a nonnegative `start`
and a positive `step`: the elements at indices `start, start + step, ...` in
increasing index order. -/
def sliceStride (l : List α) (start step : Nat) : List α :=
  ((List.range l.length).filter
    (fun i => decide (start ≤ i) && decide ((i - start) % step = 0))).filterMap
    (fun i => l[i]?)

/-- State of a constructed `LandmarkShardDataset`: rank, world size, dataset
directory and the retained (sharded, shuffled) image file names. -/
structure LandmarkShardDataset where
  rank : Nat
  worldsize : Nat
  dataset_dir : String
  img_names : List String
deriving DecidableEq

/-- Model of `LandmarkShardDataset.__init__`.  `globbed` is the directory
listing produced by `dataset_dir.glob('img_*.npy')` (impure, passed in);
`shuffle` models `random.shuffle` (impure, passed in; theorems assume it is a
permutation).  The listing is stride-sliced `[rank - 1 :: worldsize]` and then
shuffled. -/
def mkLandmarkShardDataset (shuffle : List String → List String)
    (globbed : List String) (dataset_dir : String)
    (rank worldsize : Nat) : LandmarkShardDataset :=
  { rank := rank, worldsize := worldsize, dataset_dir := dataset_dir,
    img_names := shuffle (sliceStride globbed (rank - 1) worldsize) }

/-- The 0-based listing positions retained by a given rank out of a listing of
`n` files: the slice `[rank - 1 :: worldsize]` of `[0, ..., n - 1]`. -/
def shardIndices (n rank worldsize : Nat) : List Nat :=
  sliceStride (List.range n) (rank - 1) worldsize

/-! ## Python `str` on naturals -/

/-- Decimal digit characters of `n`, most significant first; `fuel` bounds the
recursion and any `fuel > n` is enough. -/
def decimalDigits : Nat → Nat → List Char
  | 0, _ => []
  | fuel + 1, n =>
    if n < 10 then [Nat.digitChar n]
    else decimalDigits fuel (n / 10) ++ [Nat.digitChar (n % 10)]

/-- Model of Python `str` on a nonnegative integer: decimal notation. -/
def pyStr (n : Nat) : String :=
  String.mk (decimalDigits (n + 1) n)

theorem decimalDigits_ne_nil (fuel n : Nat) (h : 0 < fuel) :
    decimalDigits fuel n ≠ [] := by
  cases fuel with
  | zero => exact absurd h (by simp)
  | succ f =>
    unfold decimalDigits
    split
    · simp
    · simp

theorem pyStr_eq_one_iff (n : Nat) : pyStr n = "1" ↔ n = 1 := by
  have hmk : pyStr n = "1" ↔ decimalDigits (n + 1) n = ['1'] := by
    constructor
    · intro h
      have : (pyStr n).data = ("1" : String).data := by rw [h]
      simpa [pyStr] using this
    · intro h
      simp [pyStr, h]
  rw [hmk]
  unfold decimalDigits
  split
  · rename_i hlt
    interval_cases n <;> simp <;> decide
  · rename_i hge
    push_neg at hge
    constructor
    · intro h
      exfalso
      have hne : decimalDigits n (n / 10) ≠ [] := by
        apply decimalDigits_ne_nil
        omega
      have hlen := congrArg List.length h
      simp at hlen
      exact hne hlen
    · intro h
      omega

/-! ## Slice characterization lemmas -/

theorem mem_sliceStride {l : List α} {start step : Nat} {f : α} :
    f ∈ sliceStride l start step ↔
      ∃ i, i < l.length ∧ start ≤ i ∧ (i - start) % step = 0 ∧ l[i]? = some f := by
  simp only [sliceStride, List.mem_filterMap, List.mem_filter, List.mem_range,
    Bool.and_eq_true, decide_eq_true_eq]
  constructor
  · rintro ⟨i, ⟨⟨hi, hs, hm⟩, hget⟩⟩
    exact ⟨i, hi, hs, hm, hget⟩
  · rintro ⟨i, hi, hs, hm, hget⟩
    exact ⟨i, ⟨⟨hi, hs, hm⟩, hget⟩⟩

/-- For a rank `r` with `1 ≤ r ≤ W`, the slice-retention condition on a
position `p` is exactly `p % W = r - 1`. -/
theorem slice_cond_iff_mod {p r W : Nat} (hW : 1 ≤ W) (hr1 : 1 ≤ r) (hrW : r ≤ W) :
    (r - 1 ≤ p ∧ (p - (r - 1)) % W = 0) ↔ p % W = r - 1 := by
  have hsW : r - 1 < W := by omega
  constructor
  · rintro ⟨hle, hmod⟩
    have hdvd : W ∣ (p - (r - 1)) := Nat.dvd_of_mod_eq_zero hmod
    obtain ⟨q, hq⟩ := hdvd
    have hp : p = (r - 1) + q * W := by
      rw [Nat.mul_comm] at hq
      omega
    rw [hp, Nat.add_mul_mod_self_right]
    exact Nat.mod_eq_of_lt hsW
  · intro hmod
    have hle : r - 1 ≤ p := hmod ▸ Nat.mod_le p W
    refine ⟨hle, ?_⟩
    have hdm := Nat.div_add_mod p W
    have hsub : p - (r - 1) = W * (p / W) := by omega
    rw [hsub, Nat.mul_comm, Nat.mul_mod_left]

theorem length_filterMap_getElem (l : List α) (L : List Nat)
    (h : ∀ i ∈ L, i < l.length) :
    (L.filterMap (fun i => l[i]?)).length = L.length := by
  induction L with
  | nil => rfl
  | cons a as ih =>
    have ha : a < l.length := h a (List.mem_cons_self a as)
    rw [List.filterMap_cons, List.getElem?_eq_getElem ha]
    simp only [List.length_cons]
    rw [ih (fun i hi => h i (List.mem_cons_of_mem a hi))]

theorem length_sliceStride (l : List α) (start step : Nat) :
    (sliceStride l start step).length =
      ((List.range l.length).filter
        (fun i => decide (start ≤ i) && decide ((i - start) % step = 0))).length := by
  apply length_filterMap_getElem
  intro i hi
  exact List.mem_range.mp (List.mem_filter.mp hi).1

/-- The number of positions `p < n` with `p % W = r - 1` equals the
ceiling-division count `(n - (r - 1) + (W - 1)) / W`, for `1 ≤ r ≤ W`. -/
theorem card_mod_positions (n r W : Nat) (hW : 1 ≤ W) (hr1 : 1 ≤ r) (hrW : r ≤ W) :
    ((Finset.range n).filter (fun p => p % W = r - 1)).card =
      (n - (r - 1) + (W - 1)) / W := by
  set s := r - 1 with hs
  have hsW : s < W := by omega
  set K := (n - s + (W - 1)) / W with hK
  have himg : (Finset.range n).filter (fun p => p % W = s) =
      (Finset.range K).image (fun i => s + i * W) := by
    ext p
    simp only [Finset.mem_filter, Finset.mem_range, Finset.mem_image]
    constructor
    · rintro ⟨hpn, hpm⟩
      have hcond := (slice_cond_iff_mod hW hr1 hrW (p := p)).mpr hpm
      obtain ⟨hle, hmod⟩ := hcond
      refine ⟨(p - s) / W, ?_, ?_⟩
      · have hsn : s < n := by omega
        have hKeq : K = (n - 1 - s) / W + 1 := by
          have : n - s + (W - 1) = (n - 1 - s) + W := by omega
          rw [hK, this, Nat.add_div_right _ hW]
        have hle2 : (p - s) / W ≤ (n - 1 - s) / W :=
          Nat.div_le_div_right (by omega)
        omega
      · have hdvd : W ∣ (p - s) := Nat.dvd_of_mod_eq_zero hmod
        have := Nat.div_mul_cancel hdvd
        omega
    · rintro ⟨i, hiK, rfl⟩
      constructor
      · by_cases hsn : s < n
        · have hKeq : K = (n - 1 - s) / W + 1 := by
            have : n - s + (W - 1) = (n - 1 - s) + W := by omega
            rw [hK, this, Nat.add_div_right _ hW]
          have hiLe : i ≤ (n - 1 - s) / W := by omega
          have : i * W ≤ (n - 1 - s) / W * W :=
            Nat.mul_le_mul_right W hiLe
          have hmul := Nat.div_mul_le_self (n - 1 - s) W
          omega
        · exfalso
          have hns : n - s = 0 := by omega
          have : K = 0 := by
            rw [hK, hns]
            exact Nat.div_eq_of_lt (by omega)
          omega
      · rw [Nat.add_mul_mod_self_right]
        exact Nat.mod_eq_of_lt hsW
  rw [himg, Finset.card_image_of_injective _ ?_, Finset.card_range]
  intro i j hij
  simp only at hij
  have : i * W = j * W := by omega
  exact Nat.eq_of_mul_eq_mul_right (by omega) this

/-- List-filter count and Finset-filter count of retained positions agree. -/
theorem list_filter_count_eq_finset (n : Nat) (c : Nat → Prop) [DecidablePred c] :
    ((List.range n).filter (fun i => decide (c i))).length =
      ((Finset.range n).filter c).card := by
  have hnd : ((List.range n).filter (fun i => decide (c i))).Nodup :=
    (List.nodup_range n).filter _
  rw [← List.toFinset_card_of_nodup hnd]
  congr 1
  ext p
  simp [List.mem_filter, Finset.mem_filter, List.mem_range, Finset.mem_range]

/-! ## Filesystem and integrity manifest (LandmarkShardDescriptor cache) -/

/-- A relative path, as its list of components (last component = file name). -/
abbrev FPath := List String

/-- Contents of a file on disk.  `bytes` is raw content; `manifestJson` is a
file whose bytes are the JSON serialization of a path-to-digest mapping (the
only JSON the descriptor ever reads or writes). -/
inductive FileData where
  | bytes (content : List Nat)
  | manifestJson (entries : List (FPath × Nat))
deriving DecidableEq

/-- A directory tree as an association list from paths to file data. -/
abbrev FileSystem := List (FPath × FileData)

/-- First-match association-list lookup (a file system or JSON dict read). -/
def alookup : List (FPath × β) → FPath → Option β
  | [], _ => none
  | (q, d) :: rest, p => if q = p then some d else alookup rest p

/-- Remove every entry at path `p`. -/
def removeFile : FileSystem → FPath → FileSystem
  | [], _ => []
  | (q, d) :: rest, p =>
    if q = p then removeFile rest p else (q, d) :: removeFile rest p

/-- Overwrite (create or replace) the file at path `p`. -/
def setFile (p : FPath) (d : FileData) (fs : FileSystem) : FileSystem :=
  (p, d) :: removeFile fs p

/-- The base name of a path (what `os.walk` yields as the file name). -/
def fileName (p : FPath) : String := p.getLastD ""

/-- Model of `LandmarkShardDescriptor.calc_all_md5`: walk every file of the
data folder, skip any file named `dataset.json`, and map each remaining
relative path to the digest of its content.  `md5f` models the `md5` digest
of a file's bytes. -/
def calc_all_md5 (md5f : FileData → Nat) : FileSystem → List (FPath × Nat)
  | [] => []
  | (p, d) :: rest =>
    if fileName p = "dataset.json" then calc_all_md5 md5f rest
    else (p, md5f d) :: calc_all_md5 md5f rest

/-- Python `dict` equality on two path-to-digest mappings: the same keys with
the same values (insertion order is irrelevant). -/
def dictEq (a b : List (FPath × Nat)) : Bool :=
  a.all (fun e => alookup b e.1 == alookup a e.1) &&
    b.all (fun e => alookup a e.1 == alookup b e.1)

/-- Model of `LandmarkShardDescriptor.save_all_md5`: write the freshly
computed mapping to `dataset.json` at the top of the data folder. -/
def save_all_md5 (md5f : FileData → Nat) (fs : FileSystem) : FileSystem :=
  setFile ["dataset.json"] (FileData.manifestJson (calc_all_md5 md5f fs)) fs

/-- Model of `LandmarkShardDescriptor.is_dataset_complete`: recompute the
mapping, read the persisted `dataset.json` (a missing file is caught and
yields `false`), and compare with `dict` equality.  `none` models an uncaught
exception (the stored file exists but is not a JSON mapping). -/
def is_dataset_complete (md5f : FileData → Nat) (fs : FileSystem) : Option Bool :=
  let new_md5 := calc_all_md5 md5f fs
  match alookup fs ["dataset.json"] with
  | none => some false
  | some (FileData.manifestJson old_md5) => some (dictEq new_md5 old_md5)
  | some (FileData.bytes _) => none

/-- Written from the specification sentence, for comparison with
`calc_all_md5`: a mapping over all files in the data directory except the
manifest file itself (only the top-level `dataset.json`). -/
def calc_all_md5_spec (md5f : FileData → Nat) : FileSystem → List (FPath × Nat)
  | [] => []
  | (p, d) :: rest =>
    if p = ["dataset.json"] then calc_all_md5_spec md5f rest
    else (p, md5f d) :: calc_all_md5_spec md5f rest

/-! ## download_data, on a filesystem rooted at the working directory -/

/-- The files of `fs` that live under the directory `folder`, with the
leading component stripped (the view of the data folder as a subtree of the
working directory). -/
def subtreeFS (folder : String) : FileSystem → FileSystem
  | [] => []
  | (p, d) :: rest =>
    match p with
    | f :: q => if f = folder then (q, d) :: subtreeFS folder rest
                else subtreeFS folder rest
    | [] => subtreeFS folder rest

/-- Drop every file under the directory `folder`. -/
def dropSubtree (folder : String) : FileSystem → FileSystem
  | [] => []
  | (p, d) :: rest =>
    match p with
    | f :: _ => if f = folder then dropSubtree folder rest
                else (p, d) :: dropSubtree folder rest
    | [] => (p, d) :: dropSubtree folder rest

/-- Replace the whole subtree under `folder` by `sub` (re-rooted there). -/
def replaceSubtree (folder : String) (sub : FileSystem) (fs : FileSystem) :
    FileSystem :=
  sub.map (fun e => (folder :: e.1, e.2)) ++ dropSubtree folder fs

/-- Is the path under the hard-coded working-directory path `data/train`? -/
def underDataTrain : FPath → Bool
  | "data" :: "train" :: _ => true
  | _ => false

/-- Model of the pre-fetch cleanup in `download_data`:
`if os.path.exists('data/train'): shutil.rmtree('data/train')` — removes the
working-directory-relative `data/train` tree and nothing else. -/
def removeDataTrain : FileSystem → FileSystem
  | [] => []
  | (p, d) :: rest =>
    if underDataTrain p then removeDataTrain rest
    else (p, d) :: removeDataTrain rest

/-- Model of `LandmarkShardDescriptor.download_data` on a filesystem rooted
at the working directory.  On a cache hit nothing happens; on a miss the
`data/train` tree is removed, the archive is fetched, extracted and converted
(`converted` abstracts the resulting contents of the data folder, which come
from the network and are not derivable here), and the manifest is persisted
by `save_all_md5`.  The returned `Bool` records whether a network fetch (and
hence extraction and conversion) was performed; `none` models an uncaught
exception from the integrity check.  The `os.mkdir` of an absent data folder
has no effect on a file map and is not modelled. -/
def download_data (md5f : FileData → Nat) (data_folder : String)
    (converted : FileSystem) (fs : FileSystem) : Option (FileSystem × Bool) :=
  match is_dataset_complete md5f (subtreeFS data_folder fs) with
  | none => none
  | some true => some (fs, false)
  | some false =>
    some (replaceSubtree data_folder (save_all_md5 md5f converted)
      (removeDataTrain fs), true)

/-! ## Manifest lemmas -/

theorem alookup_removeFile (fs : FileSystem) (p q : FPath) (h : q ≠ p) :
    alookup (removeFile fs p) q = alookup fs q := by
  induction fs with
  | nil => rfl
  | cons e rest ih =>
    obtain ⟨ep, ed⟩ := e
    by_cases hep : ep = p
    · have hepq : ep ≠ q := fun heq => h (heq.symm.trans hep)
      have h1 : removeFile ((ep, ed) :: rest) p = removeFile rest p := by
        simp only [removeFile, if_pos hep]
      have h2 : alookup ((ep, ed) :: rest) q = alookup rest q := by
        simp only [alookup, if_neg hepq]
      rw [h1, h2, ih]
    · have h1 : removeFile ((ep, ed) :: rest) p = (ep, ed) :: removeFile rest p := by
        simp only [removeFile, if_neg hep]
      rw [h1]
      simp only [alookup]
      rw [ih]

theorem alookup_setFile_self (fs : FileSystem) (p : FPath) (d : FileData) :
    alookup (setFile p d fs) p = some d := by
  simp [setFile, alookup]

theorem alookup_setFile_ne (fs : FileSystem) (p q : FPath) (d : FileData)
    (h : q ≠ p) :
    alookup (setFile p d fs) q = alookup fs q := by
  simp only [setFile, alookup]
  rw [if_neg (fun hpq => h hpq.symm)]
  exact alookup_removeFile fs p q h

theorem calc_all_md5_removeFile (md5f : FileData → Nat) (fs : FileSystem)
    (p : FPath) (h : fileName p = "dataset.json") :
    calc_all_md5 md5f (removeFile fs p) = calc_all_md5 md5f fs := by
  induction fs with
  | nil => rfl
  | cons e rest ih =>
    obtain ⟨ep, ed⟩ := e
    by_cases hep : ep = p
    · subst hep
      simp only [removeFile, if_pos rfl, if_true]
      rw [ih]
      simp [calc_all_md5, h]
    · simp only [removeFile, if_neg hep, calc_all_md5]
      rw [ih]

theorem calc_all_md5_setFile (md5f : FileData → Nat) (fs : FileSystem)
    (p : FPath) (d : FileData) (h : fileName p = "dataset.json") :
    calc_all_md5 md5f (setFile p d fs) = calc_all_md5 md5f fs := by
  simp only [setFile, calc_all_md5, h, if_pos]
  exact calc_all_md5_removeFile md5f fs p h

theorem dictEq_refl (a : List (FPath × Nat)) : dictEq a a = true := by
  simp [dictEq, List.all_eq_true]

theorem dictEq_lookup_eq {a b : List (FPath × Nat)} (h : dictEq a b = true)
    (p : FPath) : alookup a p = alookup b p := by
  simp only [dictEq, Bool.and_eq_true, List.all_eq_true, beq_iff_eq] at h
  obtain ⟨ha, hb⟩ := h
  cases hma : alookup a p with
  | some v =>
    have hmem : ∃ e ∈ a, e.1 = p := by
      clear ha hb
      induction a with
      | nil => simp [alookup] at hma
      | cons e rest ih =>
        simp only [alookup] at hma
        by_cases he : e.1 = p
        · exact ⟨e, List.mem_cons_self e rest, he⟩
        · rw [if_neg he] at hma
          obtain ⟨f, hf, hfp⟩ := ih hma
          exact ⟨f, List.mem_cons_of_mem e hf, hfp⟩
    obtain ⟨e, hea, hep⟩ := hmem
    have := ha e hea
    rw [hep] at this
    rw [hma] at this
    exact this.symm
  | none =>
    cases hmb : alookup b p with
    | none => rfl
    | some w =>
      have hmem : ∃ e ∈ b, e.1 = p := by
        clear ha hb hma
        induction b with
        | nil => simp [alookup] at hmb
        | cons e rest ih =>
          simp only [alookup] at hmb
          by_cases he : e.1 = p
          · exact ⟨e, List.mem_cons_self e rest, he⟩
          · rw [if_neg he] at hmb
            obtain ⟨f, hf, hfp⟩ := ih hmb
            exact ⟨f, List.mem_cons_of_mem e hf, hfp⟩
      obtain ⟨e, heb, hep⟩ := hmem
      have := hb e heb
      rw [hep, hma, hmb] at this
      exact this

theorem alookup_calc_all_md5 (md5f : FileData → Nat) (fs : FileSystem)
    (p : FPath) (d : FileData) (hp : alookup fs p = some d)
    (hname : fileName p ≠ "dataset.json") :
    alookup (calc_all_md5 md5f fs) p = some (md5f d) := by
  induction fs with
  | nil => simp [alookup] at hp
  | cons e rest ih =>
    obtain ⟨ep, ed⟩ := e
    simp only [alookup] at hp
    by_cases hep : ep = p
    · subst hep
      rw [if_pos rfl] at hp
      injection hp with hp
      subst hp
      simp [calc_all_md5, if_neg hname, alookup]
    · rw [if_neg hep] at hp
      simp only [calc_all_md5]
      split
      · exact ih hp
      · simp only [alookup, if_neg hep]
        exact ih hp

theorem is_dataset_complete_save (md5f : FileData → Nat) (fs : FileSystem) :
    is_dataset_complete md5f (save_all_md5 md5f fs) = some true := by
  have hname : fileName (["dataset.json"] : FPath) = "dataset.json" := rfl
  simp only [is_dataset_complete, save_all_md5]
  rw [alookup_setFile_self]
  rw [calc_all_md5_setFile md5f fs _ _ hname]
  exact congrArg some (dictEq_refl _)

/-! ## Subtree lemmas for download_data -/

theorem subtreeFS_append (folder : String) (a b : FileSystem) :
    subtreeFS folder (a ++ b) = subtreeFS folder a ++ subtreeFS folder b := by
  induction a with
  | nil => rfl
  | cons e rest ih =>
    obtain ⟨ep, ed⟩ := e
    cases ep with
    | nil => simpa [subtreeFS] using ih
    | cons f q =>
      by_cases hf : f = folder
      · simp only [List.cons_append, subtreeFS, if_pos hf]
        exact congrArg (List.cons (q, ed)) ih
      · simp only [List.cons_append, subtreeFS, if_neg hf]
        exact ih

theorem subtreeFS_map_root (folder : String) (sub : FileSystem) :
    subtreeFS folder (sub.map (fun e => (folder :: e.1, e.2))) = sub := by
  induction sub with
  | nil => rfl
  | cons e rest ih =>
    obtain ⟨ep, ed⟩ := e
    simp only [List.map_cons, subtreeFS, if_pos rfl]
    rw [ih]
    simp

theorem subtreeFS_dropSubtree (folder : String) (fs : FileSystem) :
    subtreeFS folder (dropSubtree folder fs) = [] := by
  induction fs with
  | nil => rfl
  | cons e rest ih =>
    obtain ⟨ep, ed⟩ := e
    cases ep with
    | nil => simpa [dropSubtree, subtreeFS] using ih
    | cons f q =>
      by_cases hf : f = folder
      · simp only [dropSubtree, if_pos hf]
        exact ih
      · simp only [dropSubtree, if_neg hf, subtreeFS]
        exact ih

theorem subtreeFS_replaceSubtree (folder : String) (sub fs : FileSystem) :
    subtreeFS folder (replaceSubtree folder sub fs) = sub := by
  rw [replaceSubtree, subtreeFS_append, subtreeFS_map_root,
    subtreeFS_dropSubtree, List.append_nil]

theorem alookup_removeDataTrain_under (fs : FileSystem) (p : FPath)
    (h : underDataTrain p = true) :
    alookup (removeDataTrain fs) p = none := by
  induction fs with
  | nil => rfl
  | cons e rest ih =>
    obtain ⟨ep, ed⟩ := e
    by_cases hep : underDataTrain ep = true
    · simp only [removeDataTrain, if_pos hep]
      exact ih
    · have hne : ep ≠ p := fun heq => hep (heq ▸ h)
      simp only [removeDataTrain, if_neg hep, alookup, if_neg hne]
      exact ih

theorem alookup_removeDataTrain_not_under (fs : FileSystem) (p : FPath)
    (h : underDataTrain p = false) :
    alookup (removeDataTrain fs) p = alookup fs p := by
  induction fs with
  | nil => rfl
  | cons e rest ih =>
    obtain ⟨ep, ed⟩ := e
    by_cases hep : underDataTrain ep = true
    · have hne : ep ≠ p := fun heq => by rw [heq, h] at hep; exact Bool.false_ne_true hep
      simp only [removeDataTrain, if_pos hep, alookup]
      rw [if_neg hne]
      exact ih
    · simp only [removeDataTrain, if_neg hep, alookup]
      rw [ih]

/-! ## Indexed access and descriptor construction -/

/-- A numpy array, abstracted to its shape metadata (the only attribute the
descriptor inspects). -/
structure NpArr where
  shape : List Nat
deriving DecidableEq

/-- Model of `pathlib` path joining `dir / p`: an absolute right operand
replaces the left operand. -/
def pathJoin (dir p : String) : String :=
  if p.startsWith "/" then p else dir ++ "/" ++ p

/-- Model of `LandmarkShardDataset.__getitem__`: take the index-th retained
image file name, derive the key-points name by replacing the substring `img`
with `keypoints` in the whole path string, and load both files.  `load`
models `np.load`; a `none` from either load (missing or malformed file) makes
the whole access fail. -/
def lsGetitem (load : String → Option NpArr) (d : LandmarkShardDataset)
    (index : Nat) : Option (NpArr × NpArr) :=
  match d.img_names[index]? with
  | none => none
  | some name =>
    let kp_name := name.replace "img" "keypoints"
    match load name, load (pathJoin d.dataset_dir kp_name) with
    | some img, some kp => some (img, kp)
    | _, _ => none

/-- State of a constructed `LandmarkShardDescriptor`. -/
structure LandmarkShardDescriptor where
  rank : Nat
  worldsize : Nat
  data_folder : String
  sample_shape : List String
  target_shape : String
deriving DecidableEq

/-- Model of `LandmarkShardDescriptor.get_dataset`: builds a
`LandmarkShardDataset` over the configured data folder, rank and world size.
The `dataset_type` parameter is accepted but never read. -/
def get_dataset (shuffle : List String → List String)
    (glob : String → List String) (d : LandmarkShardDescriptor)
    (dataset_type : String) : LandmarkShardDataset :=
  mkLandmarkShardDataset shuffle (glob d.data_folder) d.data_folder
    d.rank d.worldsize

/-- Model of the tail of `LandmarkShardDescriptor.__init__` after
`download_data` (modelled separately on the global filesystem): build one
partition view, probe the first sample, record the shape strings and assert
that the target is 1-dimensional.  `Except.error` models an uncaught Python
exception escaping `__init__`, so no descriptor object ever reaches a
caller.  The parsing of the `rank_worldsize` string is out of scope; `rank`
and `worldsize` are the parsed integers. -/
def descriptorInit (load : String → Option NpArr)
    (shuffle : List String → List String) (glob : String → List String)
    (data_folder : String) (rank worldsize : Nat) :
    Except String LandmarkShardDescriptor :=
  let ds := mkLandmarkShardDataset shuffle (glob data_folder) data_folder
    rank worldsize
  match lsGetitem load ds 0 with
  | none => Except.error "load failure"
  | some (sample, target) =>
    let sample_shape := sample.shape.map pyStr
    let target_shape := pyStr target.shape.length
    if target_shape = "1" then
      Except.ok ⟨rank, worldsize, data_folder, sample_shape, target_shape⟩
    else Except.error "Target shape Error"

/-! ## CSV conversion (process_data) -/

/-- One row of the training CSV: the space-split tokens of the `Image` column
and the keypoint columns (`none` models a missing value / NaN). -/
structure CsvRow (α : Type) where
  image : List String
  keypoints : List (Option α)
deriving DecidableEq

/-- One forward-fill step: each cell keeps its value if present, otherwise
takes the already-filled value of the previous row at the same column. -/
def ffillStep : List (Option α) → List (Option α) → List (Option α)
  | _, [] => []
  | [], x :: xs => x :: ffillStep [] xs
  | p :: ps, x :: xs => (x.orElse fun _ => p) :: ffillStep ps xs

/-- Model of `DataFrame.fillna(method='ffill')` on the keypoint columns,
row by row; `prev` is the filled previous row (initially empty, so missing
values in the first row stay missing). -/
def ffillRows (prev : List (Option α)) : List (List (Option α)) → List (List (Option α))
  | [] => []
  | row :: rest =>
    let filled := ffillStep prev row
    filled :: ffillRows filled rest

/-- The last present value of a column prefix (the value forward fill
propagates): `none` when every cell of the prefix is missing. -/
def lastSome (l : List (Option α)) : Option α :=
  l.foldl (fun acc x => x.orElse fun _ => acc) none

/-- The token substitution of `process_data`: an empty pixel token becomes
the string `"0"`. -/
def fillTokens (toks : List String) : List String :=
  toks.map fun x => if x = "" then "0" else x

/-- Model of `np.array(..., dtype='float32').reshape(96, 96)` applied to the
substituted tokens of one row: row-major 96 x 96 grid of parsed values.
`parse` models `float32` parsing of a token; the reshape is meaningful when
the row has 96 * 96 tokens, which theorems assume. -/
def imgGrid (parse : String → α) (toks : List String) : List (List α) :=
  (List.range 96).map fun a => (((fillTokens toks).map parse).drop (96 * a)).take 96

/-- Model of `LandmarkShardDescriptor.process_data`: forward-fill the
keypoint columns, then for every row index `i` save the 96 x 96 image grid
as `img_<i>.npy` and the filled keypoint vector as `keypoints_<i>.npy`,
both under the folder prefix `cur_folder` (the data folder path followed by
`/`).  The writes are modelled as the returned list of
(name, image grid) / (name, keypoint vector) pairs, in row order.  The
`fillna` of the `Image` column is a no-op for rows whose image cell is
present, which this row type assumes. -/
def process_data (cur_folder : String) (parse : String → α)
    (rows : List (CsvRow α)) :
    List ((String × List (List α)) × (String × List (Option α))) :=
  let filled := ffillRows [] (rows.map (fun r => r.keypoints))
  (List.range rows.length).map fun i =>
    ((cur_folder ++ "img_" ++ pyStr i ++ ".npy",
        imgGrid parse ((rows.getD i ⟨[], []⟩).image)),
      (cur_folder ++ "keypoints_" ++ pyStr i ++ ".npy",
        filled.getD i []))

/-! ## Forward-fill and grid lemmas -/

/-- Fold of forward fill along a column prefix, starting from an initial
filled value. -/
def lastSomeFrom (init : Option α) (l : List (Option α)) : Option α :=
  l.foldl (fun acc x => x.orElse fun _ => acc) init

theorem lastSome_eq_lastSomeFrom (l : List (Option α)) :
    lastSome l = lastSomeFrom none l := rfl

theorem ffillStep_getD (p r : List (Option α)) (j : Nat) (hj : j < r.length) :
    (ffillStep p r).getD j none = ((r.getD j none).orElse fun _ => p.getD j none) := by
  induction r generalizing p j with
  | nil => exact absurd hj (by simp)
  | cons x xs ih =>
    cases p with
    | nil =>
      cases j with
      | zero =>
        simp only [ffillStep, List.getD_cons_zero]
        cases x <;> rfl
      | succ j =>
        simp only [ffillStep, List.getD_cons_succ]
        have hj' : j < xs.length := by simpa using hj
        rw [ih [] j hj']
        simp
    | cons q qs =>
      cases j with
      | zero =>
        simp only [ffillStep, List.getD_cons_zero]
      | succ j =>
        simp only [ffillStep, List.getD_cons_succ]
        have hj' : j < xs.length := by simpa using hj
        rw [ih qs j hj']

theorem ffillRows_entry (rows : List (List (Option α))) (prev : List (Option α))
    (i j : Nat) (hi : i < rows.length) (hrow : ∀ row ∈ rows, j < row.length) :
    ((ffillRows prev rows).getD i []).getD j none =
      lastSomeFrom (prev.getD j none)
        ((rows.take (i + 1)).map (fun row => row.getD j none)) := by
  induction rows generalizing prev i with
  | nil => exact absurd hi (by simp)
  | cons row rest ih =>
    have hjrow : j < row.length := hrow row (List.mem_cons_self row rest)
    cases i with
    | zero =>
      simp only [ffillRows, List.getD_cons_zero, List.take, List.map_cons]
      rw [ffillStep_getD prev row j hjrow]
      rfl
    | succ i =>
      have hi' : i < rest.length := by simpa using hi
      simp only [ffillRows, List.getD_cons_succ]
      rw [ih (ffillStep prev row) i hi'
        (fun rw hrw => hrow rw (List.mem_cons_of_mem row hrw))]
      rw [ffillStep_getD prev row j hjrow]
      rfl

theorem getD_map_range (n : Nat) (F : Nat → β) (i : Nat) (h : i < n) (dflt : β) :
    ((List.range n).map F).getD i dflt = F i := by
  rw [List.getD_eq_getElem?_getD, List.getElem?_map, List.getElem?_range h]
  rfl

theorem imgGrid_entry [Zero α] (parse : String → α) (toks : List String)
    (hlen : toks.length = 96 * 96) (a b : Nat) (ha : a < 96) (hb : b < 96) :
    ((imgGrid parse toks).getD a []).getD b 0 =
      parse (if toks.getD (96 * a + b) "" = "" then "0"
             else toks.getD (96 * a + b) "") := by
  have hidx : 96 * a + b < toks.length := by
    rw [hlen]; omega
  rw [imgGrid, getD_map_range 96 _ a ha]
  rw [List.getD_eq_getElem?_getD, List.getElem?_take, if_pos hb, List.getElem?_drop]
  rw [List.getElem?_map, fillTokens, List.getElem?_map]
  rw [List.getElem?_eq_getElem hidx]
  simp [List.getD_eq_getElem?_getD, List.getElem?_eq_getElem hidx]

theorem ffillRows_length (prev : List (Option α)) (rows : List (List (Option α))) :
    (ffillRows prev rows).length = rows.length := by
  induction rows generalizing prev with
  | nil => rfl
  | cons row rest ih =>
    simp only [ffillRows, List.length_cons]
    rw [ih]

/-! ## A concrete injective digest, for witnesses -/

/-- An injective encoding of byte lists into naturals (a collision-free
stand-in for `md5` in concrete witnesses). -/
def encL : List Nat → Nat
  | [] => 0
  | a :: t => Nat.pair a (encL t) + 1

theorem encL_injective : ∀ {x y : List Nat}, encL x = encL y → x = y := by
  intro x
  induction x with
  | nil =>
    intro y h
    cases y with
    | nil => rfl
    | cons b s => simp [encL] at h
  | cons a t ih =>
    intro y h
    cases y with
    | nil => simp [encL] at h
    | cons b s =>
      simp only [encL, Nat.add_right_cancel_iff] at h
      obtain ⟨h1, h2⟩ := Nat.pair_eq_pair.mp h
      rw [h1, ih h2]

/-- A concrete digest function used by witnesses: injective on byte files. -/
def md5W : FileData → Nat
  | FileData.bytes b => encL b
  | FileData.manifestJson _ => 0

/-! ## Claim theorems -/

theorem mem_img_names (shuffle : List String → List String)
    (hsh : ∀ l : List String, (shuffle l).Perm l)
    (g : List String) (dir : String) (r W : Nat) (hW : 1 ≤ W)
    (hr1 : 1 ≤ r) (hrW : r ≤ W) (f : String) :
    f ∈ (mkLandmarkShardDataset shuffle g dir r W).img_names ↔
      ∃ p, p < g.length ∧ p % W = r - 1 ∧ g[p]? = some f := by
  show f ∈ shuffle (sliceStride g (r - 1) W) ↔ _
  rw [(hsh (sliceStride g (r - 1) W)).mem_iff, mem_sliceStride]
  constructor
  · rintro ⟨p, hp, hs, hm, hget⟩
    exact ⟨p, hp, (slice_cond_iff_mod hW hr1 hrW).mp ⟨hs, hm⟩, hget⟩
  · rintro ⟨p, hp, hmod, hget⟩
    obtain ⟨hs, hm⟩ := (slice_cond_iff_mod hW hr1 hrW).mpr hmod
    exact ⟨p, hp, hs, hm, hget⟩

/-- C1: for a directory listing `g` of distinct file names and a fixed world
size `W ≥ 1`, the sets of retained file names of the ranks `1..W` are
pairwise disjoint, their union is exactly the listed files, and the file at
0-based listing position `p` is retained by rank `r` exactly when
`p % W = r - 1` (the shuffle only permutes each retained list). -/
theorem shard_ranks_partition_listing
    (g : List String) (hg : g.Nodup) (W : Nat) (hW : 1 ≤ W)
    (shuffle : List String → List String)
    (hsh : ∀ l : List String, (shuffle l).Perm l) (dir : String) :
    (∀ r s : Nat, 1 ≤ r → r ≤ W → 1 ≤ s → s ≤ W → r ≠ s → ∀ f : String,
        f ∈ (mkLandmarkShardDataset shuffle g dir r W).img_names →
        f ∉ (mkLandmarkShardDataset shuffle g dir s W).img_names) ∧
    (∀ f : String, f ∈ g ↔ ∃ r : Nat, 1 ≤ r ∧ r ≤ W ∧
        f ∈ (mkLandmarkShardDataset shuffle g dir r W).img_names) ∧
    (∀ p : Nat, ∀ hp : p < g.length, ∀ r : Nat, 1 ≤ r → r ≤ W →
        (g.get ⟨p, hp⟩ ∈ (mkLandmarkShardDataset shuffle g dir r W).img_names ↔
          p % W = r - 1)) := by
  refine ⟨?_, ?_, ?_⟩
  · intro r s hr1 hrW hs1 hsW hrs f hfr hfs
    obtain ⟨p, hp, hpm, hpget⟩ :=
      (mem_img_names shuffle hsh g dir r W hW hr1 hrW f).mp hfr
    obtain ⟨q, hq, hqm, hqget⟩ :=
      (mem_img_names shuffle hsh g dir s W hW hs1 hsW f).mp hfs
    have hpq : p = q := List.getElem?_inj hp hg (hpget.trans hqget.symm)
    have hrs1 : r - 1 = s - 1 := by rw [← hpm, hpq, hqm]
    exact hrs (by omega)
  · intro f
    constructor
    · intro hf
      obtain ⟨⟨p, hp⟩, hget⟩ := List.mem_iff_get.mp hf
      refine ⟨p % W + 1, by omega, by
        have := Nat.mod_lt p (show 0 < W by omega)
        omega, ?_⟩
      rw [mem_img_names shuffle hsh g dir (p % W + 1) W hW (by omega)
        (by have := Nat.mod_lt p (show 0 < W by omega); omega)]
      refine ⟨p, hp, by omega, ?_⟩
      rw [List.getElem?_eq_getElem hp]
      rw [← hget]
      rfl
    · rintro ⟨r, hr1, hrW, hfr⟩
      obtain ⟨p, hp, hpm, hpget⟩ :=
        (mem_img_names shuffle hsh g dir r W hW hr1 hrW f).mp hfr
      exact List.getElem?_mem hpget
  · intro p hp r hr1 hrW
    rw [mem_img_names shuffle hsh g dir r W hW hr1 hrW]
    constructor
    · rintro ⟨q, hq, hqm, hqget⟩
      have hqp : q = p := by
        apply List.getElem?_inj hq hg
        rw [hqget, List.getElem?_eq_getElem hp]
        rw [List.get_eq_getElem]
      rw [← hqp]
      exact hqm
    · intro hpm
      refine ⟨p, hp, hpm, ?_⟩
      rw [List.getElem?_eq_getElem hp, List.get_eq_getElem]

theorem shard_ranks_partition_listing_witness :
    (["a", "b", "c"] : List String).get ⟨2, by decide⟩ ∈
        (mkLandmarkShardDataset id ["a", "b", "c"] "dir" 1 2).img_names ↔
      2 % 2 = 1 - 1 :=
  (shard_ranks_partition_listing ["a", "b", "c"] (by decide) 2 (by decide)
    id (fun l => List.Perm.refl l) "dir").2.2 2 (by decide) 1 (by decide) (by decide)

/-- C2: the length reported by `__len__` is the number of listing positions
`p < N` with `p % W = r - 1`, which equals the ceiling count
`(N - (r - 1) + (W - 1)) / W` when `r - 1 < N` and `0` otherwise; in
particular for `N = 5`, `W = 2` rank 1 retains positions `[0, 2, 4]` and
rank 2 retains `[1, 3]`. -/
theorem shard_len_matches_stride_count
    (g : List String) (W : Nat) (hW : 1 ≤ W) (r : Nat) (hr1 : 1 ≤ r) (hrW : r ≤ W)
    (shuffle : List String → List String)
    (hsh : ∀ l : List String, (shuffle l).Perm l) (dir : String) :
    ((mkLandmarkShardDataset shuffle g dir r W).img_names.length =
        ((Finset.range g.length).filter (fun p => p % W = r - 1)).card) ∧
    ((mkLandmarkShardDataset shuffle g dir r W).img_names.length =
        if r - 1 < g.length then (g.length - (r - 1) + (W - 1)) / W else 0) ∧
    shardIndices 5 1 2 = [0, 2, 4] ∧ shardIndices 5 2 2 = [1, 3] := by
  have hlen1 : (mkLandmarkShardDataset shuffle g dir r W).img_names.length =
      (sliceStride g (r - 1) W).length := (hsh _).length_eq
  have hcongr : (List.range g.length).filter
        (fun i => decide (r - 1 ≤ i) && decide ((i - (r - 1)) % W = 0)) =
      (List.range g.length).filter (fun i => decide (i % W = r - 1)) := by
    apply List.filter_congr
    intro x _
    rw [← Bool.decide_and]
    exact decide_eq_decide.mpr (slice_cond_iff_mod hW hr1 hrW)
  have hchain : (mkLandmarkShardDataset shuffle g dir r W).img_names.length =
      ((Finset.range g.length).filter (fun p => p % W = r - 1)).card := by
    rw [hlen1, length_sliceStride, hcongr,
      list_filter_count_eq_finset g.length (fun p => p % W = r - 1)]
  refine ⟨hchain, ?_, by decide, by decide⟩
  rw [hchain, card_mod_positions g.length r W hW hr1 hrW]
  split
  · rfl
  · rename_i hge
    have h0 : g.length - (r - 1) = 0 := by omega
    rw [h0]
    exact Nat.div_eq_of_lt (by omega)

theorem shard_len_matches_stride_count_witness :
    (mkLandmarkShardDataset id ["a", "b", "c", "d", "e"] "dir" 2 2).img_names.length =
      if 2 - 1 < (["a", "b", "c", "d", "e"] : List String).length
      then ((["a", "b", "c", "d", "e"] : List String).length - (2 - 1) + (2 - 1)) / 2
      else 0 :=
  (shard_len_matches_stride_count ["a", "b", "c", "d", "e"] 2 (by decide) 2
    (by decide) (by decide) id (fun l => List.Perm.refl l) "dir").2.1

/-- C3 (amended): `is_dataset_complete` returns true exactly when the
persisted manifest exists as a JSON mapping and equals the freshly computed
mapping over all files except those named `dataset.json` (at any depth); it
is a pure function of the file contents (re-checking right after persisting
the manifest matches; changing one byte of a tracked file, for a
collision-free digest, mismatches); a missing manifest yields `false`, not
an exception. -/
theorem is_dataset_complete_characterization (md5f : FileData → Nat)
    (fs : FileSystem) :
    (is_dataset_complete md5f fs = some true ↔
      ∃ m, alookup fs ["dataset.json"] = some (FileData.manifestJson m) ∧
        dictEq (calc_all_md5 md5f fs) m = true) ∧
    (alookup fs ["dataset.json"] = none →
      is_dataset_complete md5f fs = some false) ∧
    is_dataset_complete md5f (save_all_md5 md5f fs) = some true ∧
    (∀ (p : FPath) (c : List Nat) (i v : Nat),
      (∀ b b' : List Nat,
        md5f (FileData.bytes b) = md5f (FileData.bytes b') → b = b') →
      alookup fs p = some (FileData.bytes c) →
      fileName p ≠ "dataset.json" →
      i < c.length → c.getD i 0 ≠ v →
      is_dataset_complete md5f fs = some true →
      is_dataset_complete md5f
        (setFile p (FileData.bytes (c.set i v)) fs) = some false) := by
  have ha : is_dataset_complete md5f fs = some true ↔
      ∃ m, alookup fs ["dataset.json"] = some (FileData.manifestJson m) ∧
        dictEq (calc_all_md5 md5f fs) m = true := by
    cases hl : alookup fs ["dataset.json"] with
    | none => simp [is_dataset_complete, hl]
    | some fd =>
      cases fd with
      | bytes b => simp [is_dataset_complete, hl]
      | manifestJson m =>
        simp [is_dataset_complete, hl]
  refine ⟨ha, ?_, is_dataset_complete_save md5f fs, ?_⟩
  · intro hl
    simp [is_dataset_complete, hl]
  · intro p c i v hinj hp hname hi hv hcomp
    obtain ⟨m, hm, hdq⟩ := ha.mp hcomp
    have hpne : (["dataset.json"] : FPath) ≠ p := by
      intro h
      rw [← h] at hname
      exact hname rfl
    have hlook : alookup (setFile p (FileData.bytes (c.set i v)) fs)
        ["dataset.json"] = some (FileData.manifestJson m) := by
      rw [alookup_setFile_ne fs p _ _ hpne]
      exact hm
    simp only [is_dataset_complete, hlook]
    suffices hfalse :
        dictEq (calc_all_md5 md5f (setFile p (FileData.bytes (c.set i v)) fs))
          m = false by
      rw [hfalse]
    cases htrue : dictEq
        (calc_all_md5 md5f (setFile p (FileData.bytes (c.set i v)) fs)) m with
    | false => rfl
    | true =>
      exfalso
      have h1 := dictEq_lookup_eq htrue p
      have h2 := dictEq_lookup_eq hdq p
      have h3 : alookup (calc_all_md5 md5f fs) p =
          some (md5f (FileData.bytes c)) :=
        alookup_calc_all_md5 md5f fs p _ hp hname
      have h4 : alookup (setFile p (FileData.bytes (c.set i v)) fs) p =
          some (FileData.bytes (c.set i v)) :=
        alookup_setFile_self fs p _
      have h5 : alookup
          (calc_all_md5 md5f (setFile p (FileData.bytes (c.set i v)) fs)) p =
          some (md5f (FileData.bytes (c.set i v))) :=
        alookup_calc_all_md5 md5f _ p _ h4 hname
      have heq : md5f (FileData.bytes (c.set i v)) = md5f (FileData.bytes c) := by
        have hcomb := (h1.trans h2.symm)
        rw [h5, h3] at hcomb
        injection hcomb
      have hc : c.set i v = c := hinj _ _ heq
      have hgot : (c.set i v).getD i 0 = v := by
        rw [List.getD_eq_getElem?_getD, List.getElem?_set_self (by simpa using hi),
          Option.getD_some]
      rw [hc] at hgot
      exact hv hgot

theorem is_dataset_complete_characterization_witness :
    is_dataset_complete md5W
      (setFile ["a"] (FileData.bytes (([1, 2] : List Nat).set 0 9))
        (save_all_md5 md5W [(["a"], FileData.bytes [1, 2])])) = some false :=
  (is_dataset_complete_characterization md5W
      (save_all_md5 md5W [(["a"], FileData.bytes [1, 2])])).2.2.2
    ["a"] [1, 2] 0 9 (fun _ _ h => encL_injective h) (by decide) (by decide)
    (by decide) (by decide) (by decide)

/-- C3, counterexample to the claim as stated: with a `dataset.json` file
inside a subdirectory, the check returns true although the stored mapping
(here empty) differs from the mapping over all files except the manifest
itself, which would include `sub/dataset.json`. -/
theorem is_dataset_complete_subdir_manifest_cex :
    is_dataset_complete md5W
        [(["sub", "dataset.json"], FileData.bytes [1]),
          (["dataset.json"], FileData.manifestJson [])] = some true ∧
      dictEq (calc_all_md5_spec md5W
        [(["sub", "dataset.json"], FileData.bytes [1]),
          (["dataset.json"], FileData.manifestJson [])]) [] = false := by
  constructor
  · decide
  · decide

/-- C4: once one invocation of `download_data` completes (on a miss it
converts the data and persists the manifest via `save_all_md5`), a second
invocation on the resulting filesystem finds the dataset complete and
performs no fetch (hence no extraction or conversion, which happen on the
same branch), leaving the filesystem unchanged. -/
theorem download_data_idempotent (md5f : FileData → Nat) (data_folder : String)
    (converted : FileSystem) (fs fs1 : FileSystem) (b : Bool)
    (h : download_data md5f data_folder converted fs = some (fs1, b)) :
    download_data md5f data_folder converted fs1 = some (fs1, false) := by
  unfold download_data at h
  cases hc : is_dataset_complete md5f (subtreeFS data_folder fs) with
  | none =>
    rw [hc] at h
    exact absurd h (by simp)
  | some bb =>
    rw [hc] at h
    cases bb with
    | true =>
      simp only [Option.some.injEq, Prod.mk.injEq] at h
      obtain ⟨h1, _⟩ := h
      subst h1
      unfold download_data
      rw [hc]
    | false =>
      simp only [Option.some.injEq, Prod.mk.injEq] at h
      obtain ⟨h1, _⟩ := h
      subst h1
      unfold download_data
      rw [subtreeFS_replaceSubtree, is_dataset_complete_save]

theorem download_data_idempotent_witness :
    download_data md5W "d" [(["a"], FileData.bytes [1])]
        (replaceSubtree "d" (save_all_md5 md5W [(["a"], FileData.bytes [1])])
          (removeDataTrain [])) =
      some (replaceSubtree "d" (save_all_md5 md5W [(["a"], FileData.bytes [1])])
        (removeDataTrain []), false) :=
  download_data_idempotent md5W "d" [(["a"], FileData.bytes [1])] []
    (replaceSubtree "d" (save_all_md5 md5W [(["a"], FileData.bytes [1])])
      (removeDataTrain [])) true (by decide)

/-- C10: on a cache miss, `download_data` first removes the hard-coded
working-directory path `data/train` — whatever the configured data folder is
(the cleanup does not mention it) — and preserves every file not under
`data/train`; in particular any file inside a configured folder other than
`data` survives the cleanup, which is the mutation the miss branch applies
before fetching. -/
theorem download_removes_data_train_only (md5f : FileData → Nat)
    (data_folder : String) (converted fs : FileSystem) :
    (∀ p : FPath, underDataTrain p = true →
      alookup (removeDataTrain fs) p = none) ∧
    (∀ p : FPath, underDataTrain p = false →
      alookup (removeDataTrain fs) p = alookup fs p) ∧
    (∀ rest : List String, data_folder ≠ "data" →
      alookup (removeDataTrain fs) (data_folder :: rest) =
        alookup fs (data_folder :: rest)) ∧
    (is_dataset_complete md5f (subtreeFS data_folder fs) = some false →
      download_data md5f data_folder converted fs =
        some (replaceSubtree data_folder (save_all_md5 md5f converted)
          (removeDataTrain fs), true)) := by
  refine ⟨fun p hp => alookup_removeDataTrain_under fs p hp,
    fun p hp => alookup_removeDataTrain_not_under fs p hp, ?_, ?_⟩
  · intro rest hD
    apply alookup_removeDataTrain_not_under
    unfold underDataTrain
    split
    · rename_i heq
      injection heq with hh _
      exact absurd hh hD
    · rfl
  · intro hmiss
    unfold download_data
    rw [hmiss]

theorem download_removes_data_train_only_witness :
    alookup (removeDataTrain
        [((["data", "train", "x"] : FPath), FileData.bytes [1]),
          ((["mydata", "img"] : FPath), FileData.bytes [2])])
      ["data", "train", "x"] = none ∧
    alookup (removeDataTrain
        [((["data", "train", "x"] : FPath), FileData.bytes [1]),
          ((["mydata", "img"] : FPath), FileData.bytes [2])])
      ["mydata", "img"] =
      alookup [((["data", "train", "x"] : FPath), FileData.bytes [1]),
          ((["mydata", "img"] : FPath), FileData.bytes [2])]
        ["mydata", "img"] ∧
    download_data md5W "mydata" []
        [((["data", "train", "x"] : FPath), FileData.bytes [1]),
          ((["mydata", "img"] : FPath), FileData.bytes [2])] =
      some (replaceSubtree "mydata" (save_all_md5 md5W [])
        (removeDataTrain
          [((["data", "train", "x"] : FPath), FileData.bytes [1]),
            ((["mydata", "img"] : FPath), FileData.bytes [2])]), true) :=
  ⟨(download_removes_data_train_only md5W "mydata" []
      [(["data", "train", "x"], FileData.bytes [1]),
        (["mydata", "img"], FileData.bytes [2])]).1
    ["data", "train", "x"] (by decide),
   (download_removes_data_train_only md5W "mydata" []
      [(["data", "train", "x"], FileData.bytes [1]),
        (["mydata", "img"], FileData.bytes [2])]).2.2.1
    ["img"] (by decide),
   (download_removes_data_train_only md5W "mydata" []
      [(["data", "train", "x"], FileData.bytes [1]),
        (["mydata", "img"], FileData.bytes [2])]).2.2.2 (by decide)⟩

/-- C5: if probing the first sample of the freshly built partition view
yields a target whose array is not 1-dimensional, construction fails with
the assertion `Target shape Error` right after the probe, so no descriptor
(and hence no partition view through it) reaches a caller; with a
1-dimensional target, construction succeeds. -/
theorem init_asserts_target_dim (load : String → Option NpArr)
    (shuffle : List String → List String) (glob : String → List String)
    (data_folder : String) (rank worldsize : Nat) (sample target : NpArr)
    (hprobe : lsGetitem load
        (mkLandmarkShardDataset shuffle (glob data_folder) data_folder
          rank worldsize) 0 = some (sample, target)) :
    (target.shape.length ≠ 1 →
      descriptorInit load shuffle glob data_folder rank worldsize =
        Except.error "Target shape Error") ∧
    (target.shape.length = 1 →
      descriptorInit load shuffle glob data_folder rank worldsize =
        Except.ok ⟨rank, worldsize, data_folder, sample.shape.map pyStr,
          pyStr target.shape.length⟩) := by
  have hinit : descriptorInit load shuffle glob data_folder rank worldsize =
      if pyStr target.shape.length = "1" then
        Except.ok ⟨rank, worldsize, data_folder, sample.shape.map pyStr,
          pyStr target.shape.length⟩
      else Except.error "Target shape Error" := by
    simp only [descriptorInit]
    rw [hprobe]
  constructor
  · intro hne
    rw [hinit, if_neg (fun h => hne ((pyStr_eq_one_iff _).mp h))]
  · intro he
    rw [hinit, if_pos ((pyStr_eq_one_iff _).mpr he)]

theorem init_asserts_target_dim_witness :
    (descriptorInit (fun _ => some ⟨[2, 2]⟩) id (fun _ => ["img_0.npy"])
        "f" 1 1 = Except.error "Target shape Error") ∧
    (descriptorInit (fun _ => some ⟨[3]⟩) id (fun _ => ["img_0.npy"])
        "f" 1 1 =
      Except.ok ⟨1, 1, "f", (([3] : List Nat).map pyStr),
        pyStr (([3] : List Nat).length)⟩) :=
  ⟨(init_asserts_target_dim (fun _ => some ⟨[2, 2]⟩) id
      (fun _ => ["img_0.npy"]) "f" 1 1 ⟨[2, 2]⟩ ⟨[2, 2]⟩ rfl).1 (by decide),
   (init_asserts_target_dim (fun _ => some ⟨[3]⟩) id
      (fun _ => ["img_0.npy"]) "f" 1 1 ⟨[3]⟩ ⟨[3]⟩ rfl).2 (by decide)⟩

/-- C7: for a valid index, `__getitem__` succeeds exactly when loading both
the retained image file and the key-points file — whose name is obtained by
replacing the substring `img` with `keypoints` in the image path and joining
it to the dataset directory — succeeds, returning the loaded pair; if either
load fails (missing or malformed file), the access fails. -/
theorem getitem_loads_pair (load : String → Option NpArr)
    (d : LandmarkShardDataset) (i : Nat) (hi : i < d.img_names.length) :
    (∀ a b : NpArr, lsGetitem load d i = some (a, b) ↔
      (load (d.img_names.get ⟨i, hi⟩) = some a ∧
        load (pathJoin d.dataset_dir
          ((d.img_names.get ⟨i, hi⟩).replace "img" "keypoints")) = some b)) ∧
    ((load (d.img_names.get ⟨i, hi⟩) = none ∨
        load (pathJoin d.dataset_dir
          ((d.img_names.get ⟨i, hi⟩).replace "img" "keypoints")) = none) →
      lsGetitem load d i = none) := by
  have hidx : d.img_names[i]? = some (d.img_names.get ⟨i, hi⟩) := by
    rw [List.getElem?_eq_getElem hi, List.get_eq_getElem]
  have hred : lsGetitem load d i =
      match load (d.img_names.get ⟨i, hi⟩),
        load (pathJoin d.dataset_dir
          ((d.img_names.get ⟨i, hi⟩).replace "img" "keypoints")) with
      | some img, some kp => some (img, kp)
      | _, _ => none := by
    unfold lsGetitem
    rw [hidx]
  constructor
  · intro a b
    rw [hred]
    cases hla : load (d.img_names.get ⟨i, hi⟩) with
    | none =>
      cases load (pathJoin d.dataset_dir
          ((d.img_names.get ⟨i, hi⟩).replace "img" "keypoints")) <;> simp
    | some x =>
      cases hlb : load (pathJoin d.dataset_dir
          ((d.img_names.get ⟨i, hi⟩).replace "img" "keypoints")) with
      | none => simp
      | some y => simp [eq_comm]
  · intro hor
    rw [hred]
    rcases hor with hla | hlb
    · rw [hla]
    · rw [hlb]
      cases load (d.img_names.get ⟨i, hi⟩) <;> rfl

theorem getitem_loads_pair_witness :
    lsGetitem (fun _ => none) ⟨1, 1, "dir", ["dir/img_0.npy"]⟩ 0 = none :=
  (getitem_loads_pair (fun _ => none) ⟨1, 1, "dir", ["dir/img_0.npy"]⟩ 0
    (by decide)).2 (Or.inl rfl)

/-- C8: `get_dataset` builds the partition view from the manager's
configured data folder, rank and world size, and its `dataset_type`
parameter has no effect on the result. -/
theorem get_dataset_ignores_type (shuffle : List String → List String)
    (glob : String → List String) (d : LandmarkShardDescriptor)
    (dataset_type : String) :
    get_dataset shuffle glob d dataset_type =
      mkLandmarkShardDataset shuffle (glob d.data_folder) d.data_folder
        d.rank d.worldsize ∧
    ∀ other_type : String,
      get_dataset shuffle glob d dataset_type =
        get_dataset shuffle glob d other_type :=
  ⟨rfl, fun _ => rfl⟩

/-- C9: the mapping built by `calc_all_md5` never contains a file named
`dataset.json`, at any depth of the walk; consequently overwriting a
`dataset.json` inside a subdirectory leaves the computed mapping — and the
result of the integrity check — unchanged. -/
theorem calc_all_md5_skips_manifest_name (md5f : FileData → Nat)
    (fs : FileSystem) (p : FPath) (d : FileData)
    (hname : fileName p = "dataset.json") :
    (∀ (q : FPath) (h : Nat), (q, h) ∈ calc_all_md5 md5f fs →
      fileName q ≠ "dataset.json") ∧
    calc_all_md5 md5f (setFile p d fs) = calc_all_md5 md5f fs ∧
    (2 ≤ p.length →
      is_dataset_complete md5f (setFile p d fs) =
        is_dataset_complete md5f fs) := by
  refine ⟨?_, calc_all_md5_setFile md5f fs p d hname, ?_⟩
  · induction fs with
    | nil =>
      intro q h hq
      simp [calc_all_md5] at hq
    | cons e rest ih =>
      obtain ⟨ep, ed⟩ := e
      intro q h hq
      by_cases hcase : fileName ep = "dataset.json"
      · rw [show calc_all_md5 md5f ((ep, ed) :: rest) = calc_all_md5 md5f rest
          from by simp [calc_all_md5, hcase]] at hq
        exact ih q h hq
      · rw [show calc_all_md5 md5f ((ep, ed) :: rest) =
            (ep, md5f ed) :: calc_all_md5 md5f rest
          from by simp [calc_all_md5, hcase]] at hq
        rcases List.mem_cons.mp hq with heq | hmem
        · injection heq with h1 _
          rw [h1]
          exact hcase
        · exact ih q h hmem
  · intro hlen
    have hne : (["dataset.json"] : FPath) ≠ p := by
      intro he
      rw [← he] at hlen
      simp at hlen
    simp only [is_dataset_complete]
    rw [calc_all_md5_setFile md5f fs p d hname,
      alookup_setFile_ne fs p ["dataset.json"] d hne]

theorem calc_all_md5_skips_manifest_name_witness :
    is_dataset_complete md5W
        (setFile ["sub", "dataset.json"] (FileData.bytes [2])
          [(["x"], FileData.bytes [1])]) =
      is_dataset_complete md5W [(["x"], FileData.bytes [1])] :=
  (calc_all_md5_skips_manifest_name md5W [(["x"], FileData.bytes [1])]
    ["sub", "dataset.json"] (FileData.bytes [2]) (by decide)).2.2 (by decide)

/-- C6: `process_data` turns row `i` into the files
`<folder>img_<i>.npy` and `<folder>keypoints_<i>.npy`; the image grid entry
at `(a, b)` is `0` for an empty pixel token and the parsed token otherwise;
and the saved keypoint cell at column `j` is the forward-filled value, i.e.
the last present value of that column among rows `0..i`. -/
theorem process_data_grid_ffill_naming {α : Type} [Zero α]
    (cur_folder : String) (parse : String → α) (hparse : parse "0" = 0)
    (rows : List (CsvRow α)) (L : Nat)
    (hL : ∀ row ∈ rows, row.keypoints.length = L) :
    ((process_data cur_folder parse rows).length = rows.length) ∧
    (∀ i, i < rows.length →
      ((process_data cur_folder parse rows).getD i ⟨⟨"", []⟩, ⟨"", []⟩⟩).1.1 =
          cur_folder ++ "img_" ++ pyStr i ++ ".npy" ∧
        ((process_data cur_folder parse rows).getD i ⟨⟨"", []⟩, ⟨"", []⟩⟩).2.1 =
          cur_folder ++ "keypoints_" ++ pyStr i ++ ".npy") ∧
    (∀ i, i < rows.length →
      (rows.getD i ⟨[], []⟩).image.length = 96 * 96 →
      ∀ a b, a < 96 → b < 96 →
      ((((process_data cur_folder parse rows).getD i
            ⟨⟨"", []⟩, ⟨"", []⟩⟩).1.2).getD a []).getD b 0 =
        if (rows.getD i ⟨[], []⟩).image.getD (96 * a + b) "" = "" then 0
        else parse ((rows.getD i ⟨[], []⟩).image.getD (96 * a + b) "")) ∧
    (∀ i j, i < rows.length → j < L →
      (((process_data cur_folder parse rows).getD i
            ⟨⟨"", []⟩, ⟨"", []⟩⟩).2.2).getD j none =
        lastSome ((rows.take (i + 1)).map
          (fun row => row.keypoints.getD j none))) := by
  have hentry : ∀ i, i < rows.length →
      (process_data cur_folder parse rows).getD i ⟨⟨"", []⟩, ⟨"", []⟩⟩ =
        ((cur_folder ++ "img_" ++ pyStr i ++ ".npy",
            imgGrid parse ((rows.getD i ⟨[], []⟩).image)),
          (cur_folder ++ "keypoints_" ++ pyStr i ++ ".npy",
            (ffillRows [] (rows.map (fun r => r.keypoints))).getD i [])) := by
    intro i hi
    simp only [process_data]
    exact getD_map_range rows.length _ i hi _
  refine ⟨?_, ?_, ?_, ?_⟩
  · simp only [process_data]
    rw [List.length_map, List.length_range]
  · intro i hi
    rw [hentry i hi]
    exact ⟨rfl, rfl⟩
  · intro i hi himg a b ha hb
    rw [hentry i hi]
    show ((imgGrid parse ((rows.getD i ⟨[], []⟩).image)).getD a []).getD b 0 = _
    rw [imgGrid_entry parse _ himg a b ha hb]
    by_cases ht : (rows.getD i ⟨[], []⟩).image.getD (96 * a + b) "" = ""
    · rw [if_pos ht, if_pos ht, hparse]
    · rw [if_neg ht, if_neg ht]
  · intro i j hi hj
    rw [hentry i hi]
    show ((ffillRows [] (rows.map (fun r => r.keypoints))).getD i []).getD j
        none = _
    rw [ffillRows_entry (rows.map (fun r => r.keypoints)) [] i j
      (by simpa using hi) ?_]
    · rw [lastSome_eq_lastSomeFrom]
      have hd : (([] : List (Option α)).getD j none) = none := by simp
      rw [hd]
      congr 1
      rw [← List.map_take, List.map_map]
      rfl
    · intro row hrow
      obtain ⟨r, hr, hrk⟩ := List.mem_map.mp hrow
      rw [← hrk, hL r hr]
      exact hj

/-- Concrete rows used by the C6 witness: a full row of token "5" with a
present keypoint, then a row of empty tokens with a missing keypoint. -/
def rowsW : List (CsvRow Nat) :=
  [⟨List.replicate (96 * 96) "5", [some 7]⟩,
    ⟨List.replicate (96 * 96) "", [none]⟩]

theorem process_data_grid_ffill_naming_witness :
    (((((process_data "data/" (fun s => s.length - 1) rowsW).getD 1
          ⟨⟨"", []⟩, ⟨"", []⟩⟩).1.2).getD 0 []).getD 0 0 =
      if (rowsW.getD 1 ⟨[], []⟩).image.getD (96 * 0 + 0) "" = "" then 0
      else (fun s : String => s.length - 1)
        ((rowsW.getD 1 ⟨[], []⟩).image.getD (96 * 0 + 0) "")) ∧
    ((((process_data "data/" (fun s => s.length - 1) rowsW).getD 1
          ⟨⟨"", []⟩, ⟨"", []⟩⟩).2.2).getD 0 none =
      lastSome ((rowsW.take (1 + 1)).map
        (fun row => row.keypoints.getD 0 none))) :=
  ⟨(process_data_grid_ffill_naming "data/" (fun s => s.length - 1) (by decide)
      rowsW 1 (by decide)).2.2.1 1 (by decide)
      (by rw [show (rowsW.getD 1 ⟨[], []⟩).image = List.replicate (96 * 96) ""
            from rfl, List.length_replicate]) 0 0 (by decide)
      (by decide),
    (process_data_grid_ffill_naming "data/" (fun s => s.length - 1) (by decide)
      rowsW 1 (by decide)).2.2.2 1 0 (by decide) (by decide)⟩
